import Mathlib

/-!
# Verification of the maity_desktop real-time transcription pipeline

A shallow embedding of the core of the recording / transcription pipeline of
`src/frontend/src-tauri/src/audio`:

* `ChunkAccumulator` (`audio/transcription/worker.rs`) — batching of small
  audio segments into transcription-sized chunks;
* the dispatcher helper `dispatch_accumulated` and the shutdown
  verification loop of `start_transcription_task` (`worker.rs`);
* one worker-loop iteration of `start_transcription_task` (`worker.rs`);
* the Deepgram streaming reader task, its connection-generation guard and
  its pending-chunk-info queue (`audio/transcription/deepgram_provider.rs`);
* `convert_to_pcm16` (`deepgram_provider.rs`);
* `stop_recording` (`audio/recording_lifecycle.rs`).

Modelling conventions:

* Rust `f64` / `f32` quantities (timestamps, durations, samples, confidence)
  are modelled as `ℚ`; the arithmetic appearing in the modelled code is
  exact in rationals except the f32 multiply inside `convert_to_pcm16`,
  whose IEEE round-to-nearest-even step is modelled explicitly
  (`f32Round`); NaN / infinity inputs are outside the model.
* Rust `u64` / `u32` counters are modelled as `ℕ`; the modelled counters only
  ever grow by `+1` from `0`, far from any wrap-around.
* `std::time::Instant` values are modelled as rational time points threaded
  through the functions that read the clock.
* Atomics are modelled as explicit state; where concurrency matters (the
  global `SEQUENCE_COUNTER`), a small interleaving semantics over task
  schedules is used.
-/

/-- `DeviceType` from `audio/recording_state.rs` (as used throughout
`worker.rs` and `engine.rs`): origin of an audio chunk. -/

inductive DeviceType where
  | Microphone
  | System
  | Mixed
  deriving DecidableEq

/-- `AudioChunk` (fields as used in `worker.rs`): samples (`data`), sample
rate, recording-relative timestamp in seconds, running chunk id and source
device. -/

structure AudioChunk where
  data : List ℚ
  sample_rate : ℕ
  timestamp : ℚ
  chunk_id : ℕ
  device_type : DeviceType
  deriving DecidableEq

/-- `ChunkAccumulator` from `worker.rs` (lines 31–48).  `last_add_time` is
the `Instant` of the most recent `add`, modelled as a rational time point;
`flush_timeout` is kept in seconds. -/

structure ChunkAccumulator where
  buffer : List ℚ
  sample_rate : ℕ
  first_timestamp : ℚ
  device_type : DeviceType
  next_chunk_id : ℕ
  min_duration_secs : ℚ
  max_duration_secs : ℚ
  last_add_time : ℚ
  flush_timeout : ℚ
  deriving DecidableEq

/-- `ChunkAccumulator::new` (`worker.rs` lines 51–63).  `now` models
`Instant::now()` at construction time. -/

def ChunkAccumulator.new (min_duration max_duration : ℚ) (flush_timeout_ms : ℕ)
    (now : ℚ) : ChunkAccumulator :=
  { buffer := []
    sample_rate := 16000
    first_timestamp := 0
    device_type := .Mixed
    next_chunk_id := 0
    min_duration_secs := min_duration
    max_duration_secs := max_duration
    last_add_time := now
    flush_timeout := (flush_timeout_ms : ℚ) / 1000 }

/-- `ChunkAccumulator::flush` (`worker.rs` lines 101–119): `None` on an empty
buffer, otherwise the whole buffer as one `AudioChunk` (timestamp =
`first_timestamp`, id = `next_chunk_id`), leaving the buffer empty and the
id counter incremented.  (`shrink_to_fit` only affects capacity.) -/

def ChunkAccumulator.flush (a : ChunkAccumulator) : Option AudioChunk × ChunkAccumulator :=
  if a.buffer.isEmpty then
    (none, a)
  else
    let chunk_id := a.next_chunk_id
    let flushed : AudioChunk :=
      { data := a.buffer
        sample_rate := a.sample_rate
        timestamp := a.first_timestamp
        chunk_id := chunk_id
        device_type := a.device_type }
    (some flushed, { a with buffer := [], next_chunk_id := chunk_id + 1 })

/-- `ChunkAccumulator::add` (`worker.rs` lines 66–85).  `now` models
`Instant::now()` at the call. -/

def ChunkAccumulator.add (a : ChunkAccumulator) (chunk : AudioChunk) (now : ℚ) :
    Option AudioChunk × ChunkAccumulator :=
  let a1 :=
    if a.buffer.isEmpty then
      { a with
        first_timestamp := chunk.timestamp
        device_type := chunk.device_type
        sample_rate := chunk.sample_rate }
    else a
  let a2 := { a1 with buffer := a1.buffer ++ chunk.data, last_add_time := now }
  let duration : ℚ := (a2.buffer.length : ℚ) / (a2.sample_rate : ℚ)
  if a2.max_duration_secs ≤ duration ∨ a2.min_duration_secs ≤ duration then
    a2.flush
  else
    (none, a2)

/-- `ChunkAccumulator::check_timeout` (`worker.rs` lines 89–98). -/

def ChunkAccumulator.check_timeout (a : ChunkAccumulator) (now : ℚ) :
    Option AudioChunk × ChunkAccumulator :=
  if a.buffer.isEmpty = false ∧ a.flush_timeout ≤ now - a.last_add_time then
    let duration : ℚ := (a.buffer.length : ℚ) / (a.sample_rate : ℚ)
    if (1 : ℚ) / 2 ≤ duration then a.flush else (none, a)
  else
    (none, a)

/-- The duration computed inside `add` after appending: total buffered
samples divided by the effective sample rate (taken from the chunk when the
buffer was empty, from the accumulator otherwise). -/

def addDuration (a : ChunkAccumulator) (chunk : AudioChunk) : ℚ :=
  let sr := if a.buffer.isEmpty then chunk.sample_rate else a.sample_rate
  ((a.buffer.length + chunk.data.length : ℕ) : ℚ) / (sr : ℚ)

/-- A concrete accumulator used to witness `chunkAccumulator_add_spec`:
empty buffer, `min = 1 s`, `max = 8 s` at a 2 Hz model rate. -/

def accumulatorExample : ChunkAccumulator :=
  { buffer := []
    sample_rate := 2
    first_timestamp := 0
    device_type := .Mixed
    next_chunk_id := 0
    min_duration_secs := 1
    max_duration_secs := 8
    last_add_time := 0
    flush_timeout := 2 }

/-- A concrete chunk holding exactly 1 s of audio at the 2 Hz model rate. -/

def chunkExample : AudioChunk :=
  { data := [0, 0]
    sample_rate := 2
    timestamp := 3
    chunk_id := 7
    device_type := .Microphone }

/-! ## C9: `stop_recording` is a no-op when no recording is active
(`audio/recording_lifecycle.rs` lines 183–205). -/

/-- The shutdown stages emitted as `recording-shutdown-progress` events. -/

inductive StopStage where
  | stopping_audio
  | processing_transcripts
  | unloading_model
  | finalizing
  | complete
  deriving DecidableEq

/-- Lifecycle events emitted by `stop_recording`. -/

inductive StopEvent where
  | shutdownProgress (stage : StopStage) (progress : ℕ)
  | recordingStopped
  deriving DecidableEq

/-- Outcomes of the external interactions performed on the shutdown path
(recording manager presence, `stop_streams_and_force_flush`, the final
`recording-stopped` emit): `stop_recording` only branches on success or
failure of each. -/

structure StopEnv where
  managerPresent : Bool
  stopStreamsOk : Bool
  emitStoppedOk : Bool
  deriving DecidableEq

/-- `stop_recording` (`recording_lifecycle.rs` lines 183–561), abstracted over
the external interactions in `StopEnv`.  Returns the `Result`, the lifecycle
events emitted (in order) and the final value of `IS_RECORDING`.  Model
notes: the model-unload, analytics and save steps only log on failure and
emit no lifecycle events, so they need no environment flags; the
`transcription task` wait likewise. -/

def stop_recording (is_recording : Bool) (env : StopEnv) :
    Except String Unit × List StopEvent × Bool :=
  if is_recording = false then
    (Except.ok (), ([], is_recording))
  else
    let ev1 : List StopEvent := [.shutdownProgress .stopping_audio 20]
    if env.managerPresent = true ∧ env.stopStreamsOk = false then
      (Except.error "Failed to stop audio streams", (ev1, true))
    else
      let ev2 := ev1 ++ [StopEvent.shutdownProgress .processing_transcripts 40,
                         StopEvent.shutdownProgress .unloading_model 70,
                         StopEvent.shutdownProgress .finalizing 90]
      -- IS_RECORDING is stored `false` here, before the final two emits
      let ev3 := ev2 ++ [StopEvent.shutdownProgress .complete 100]
      if env.emitStoppedOk = true then
        (Except.ok (), (ev3 ++ [StopEvent.recordingStopped], false))
      else
        (Except.error "emit recording-stopped failed", (ev3, false))

/-! ## C3: `dispatch_accumulated` (`worker.rs` lines 487–515). -/

/-- Outcome of the 5-second `tokio::time::timeout(…, work_sender.send(…))`:
`sent` — the send completed in time (`Ok(Ok(()))`); `channelClosed` — the
workers terminated and the channel is closed (`Ok(Err(_))`); `sendTimeout` —
the bounded channel stayed full for more than 5 s (`Err(_)`). -/

inductive SendOutcome where
  | sent
  | channelClosed
  | sendTimeout
  deriving DecidableEq

/-- Result of one `dispatch_accumulated` call: whether the dispatcher loop
keeps running, the contents of the bounded work channel, and the two
counters. -/

structure DispatchResult where
  keepGoing : Bool
  channel : List AudioChunk
  chunks_queued : ℕ
  chunks_dropped : ℕ
  deriving DecidableEq

/-- `dispatch_accumulated` (`worker.rs` lines 487–515): increments
`chunks_queued` first, then attempts the bounded send with a 5 s timeout.
On timeout the chunk is dropped (`chunks_dropped + 1`) and the function
returns `true` (the dispatcher continues); on a closed channel it returns
`false` (the loop breaks). -/

def dispatch_accumulated (accumulated : AudioChunk) (channel : List AudioChunk)
    (chunks_queued chunks_dropped : ℕ) (outcome : SendOutcome) : DispatchResult :=
  let queued := chunks_queued + 1
  match outcome with
  | .sent =>
    { keepGoing := true, channel := channel ++ [accumulated],
      chunks_queued := queued, chunks_dropped := chunks_dropped }
  | .channelClosed =>
    { keepGoing := false, channel := channel,
      chunks_queued := queued, chunks_dropped := chunks_dropped }
  | .sendTimeout =>
    { keepGoing := true, channel := channel,
      chunks_queued := queued, chunks_dropped := chunks_dropped + 1 }

/-! ## C1: the shutdown verification loop (`worker.rs` lines 586–652). -/

/-- A snapshot of the three completion counters
(`chunks_queued`, `chunks_completed`, `chunks_dropped`). -/

structure Counters where
  queued : ℕ
  completed : ℕ
  dropped : ℕ
  deriving DecidableEq

/-- The two terminal events the verification loop can emit. -/

inductive SummaryEvent where
  | transcriptionSummary (queued completed dropped : ℕ) (status : String)
  | chunkLossDetected (queued completed dropped lost : ℕ)
  deriving DecidableEq

/-- The `transcription-summary` payload emitted when the counters balance
(`worker.rs` lines 615–621): status `"success"` when nothing was dropped,
`"partial_loss"` otherwise. -/

def summaryOf (c : Counters) : SummaryEvent :=
  .transcriptionSummary c.queued c.completed c.dropped
    (if c.dropped = 0 then "success" else "partial_loss")

/-- The `transcript-chunk-loss-detected` payload (`worker.rs` lines 632–649);
`lost` is `queued.saturating_sub(completed + dropped)`. -/

def lossOf (c : Counters) : SummaryEvent :=
  .chunkLossDetected c.queued c.completed c.dropped (c.queued - (c.completed + c.dropped))

/-- The final-verification retry loop (`worker.rs` lines 586–652).  `obs i`
is the snapshot of the (concurrently written) atomic counters read on the
i-th pass; `retriesLeft` is `MAX_VERIFICATION_ATTEMPTS - verification_attempts`.
Each unbalanced pass with retries left sleeps 100 ms and re-reads. -/

def runVerification (obs : ℕ → Counters) : ℕ → ℕ → SummaryEvent
  | i, 0 =>
    if (obs i).queued = (obs i).completed + (obs i).dropped then summaryOf (obs i)
    else lossOf (obs i)
  | i, r + 1 =>
    if (obs i).queued = (obs i).completed + (obs i).dropped then summaryOf (obs i)
    else runVerification obs (i + 1) r

/-- The loop as entered after the workers have been joined (input already
marked finished): `verification_attempts = 0`,
`MAX_VERIFICATION_ATTEMPTS = 10`. -/

def shutdownVerification (obs : ℕ → Counters) : SummaryEvent :=
  runVerification obs 0 10

/-! ## C2: the global `SEQUENCE_COUNTER` (`worker.rs` line 17) and emission
order.

Every emission site obtains its `sequence_id` by
`SEQUENCE_COUNTER.fetch_add(1, SeqCst)` — the worker (`worker.rs` line 323)
and both Deepgram reader paths (`deepgram_provider.rs` lines 547 and 597) —
and only afterwards hands the constructed `TranscriptUpdate` to the emitter.
The fetch and the emit are two separate steps with no lock spanning both, and
the worker task and the two per-device reader tasks run concurrently.  The
model below therefore gives each emitting task a two-step program per
emission (`fetch_add`, then `emit`) and executes an arbitrary interleaving
(a schedule of task indices). -/

/-- State of one emitting task: the id it has fetched but not yet emitted
(if any), and how many further emissions it will perform. -/

structure TaskState where
  pending : Option ℕ
  remaining : ℕ
  deriving DecidableEq

/-- Global state: the `SEQUENCE_COUNTER` value, the per-task states (a
partial table indexed by task id), and the log of emissions `(task,
sequence_id)` in real-time emission order. -/

structure EmitSystem where
  counter : ℕ
  tasks : ℕ → Option TaskState
  log : List (ℕ × ℕ)

/-- One scheduler step running task `t`: if `t` holds a fetched id it emits
it (appends to the log); otherwise, if it still has emissions to perform, it
executes `SEQUENCE_COUNTER.fetch_add(1)` (atomically reads `counter` and
increments it). -/

def emitStep (s : EmitSystem) (t : ℕ) : EmitSystem :=
  match s.tasks t with
  | none => s
  | some ts =>
    match ts.pending with
    | some id =>
      { s with
        tasks := fun u => if u = t then some { ts with pending := none } else s.tasks u
        log := s.log ++ [(t, id)] }
    | none =>
      match ts.remaining with
      | 0 => s
      | r + 1 =>
        { s with
          counter := s.counter + 1
          tasks := fun u =>
            if u = t then some { pending := some s.counter, remaining := r } else s.tasks u }

/-- Run a whole schedule (arbitrary interleaving of the tasks). -/

def emitRun (s : EmitSystem) : List ℕ → EmitSystem
  | [] => s
  | t :: rest => emitRun (emitStep s t) rest

/-- Initial state: counter 0 (`AtomicU64::new(0)`), one task per entry of
`quotas` (its number of emissions), nothing fetched, empty log. -/

def initEmitSystem (quotas : List ℕ) : EmitSystem :=
  { counter := 0
    tasks := fun t => (quotas[t]?).map (fun r => { pending := none, remaining := r })
    log := [] }

/-- The sequence ids of all emissions, in emission order. -/

def logIdsOf (log : List (ℕ × ℕ)) : List ℕ :=
  log.map (fun p => p.2)

/-- The sequence ids emitted by task `t`, in emission order. -/

def taskIdsOf (log : List (ℕ × ℕ)) (t : ℕ) : List ℕ :=
  (log.filter (fun p => p.1 == t)).map (fun p => p.2)

/-- Invariant of the emission system: every id in the log or pending is below
the counter; all ids (logged and pending) are pairwise distinct; each task's
emitted ids are strictly increasing and below its pending id. -/

structure EmitInv (s : EmitSystem) : Prop where
  log_lt : ∀ x ∈ logIdsOf s.log, x < s.counter
  pend_lt : ∀ t ts id, s.tasks t = some ts → ts.pending = some id → id < s.counter
  log_nodup : (logIdsOf s.log).Nodup
  log_pend : ∀ x ∈ logIdsOf s.log, ∀ t ts id, s.tasks t = some ts →
      ts.pending = some id → x ≠ id
  pend_pend : ∀ t1 t2 ts1 ts2 id1 id2, t1 ≠ t2 → s.tasks t1 = some ts1 →
      s.tasks t2 = some ts2 → ts1.pending = some id1 → ts2.pending = some id2 → id1 ≠ id2
  task_chain : ∀ t, List.Chain' (· < ·) (taskIdsOf s.log t)
  task_pend : ∀ t ts id, s.tasks t = some ts → ts.pending = some id →
      ∀ x ∈ taskIdsOf s.log t, x < id

/-! ## C4 / C5: the Deepgram streaming reader task
(`deepgram_provider.rs` lines 464–633). -/

/-- `TranscriptUpdate` (`worker.rs` lines 122–138).  The wall-clock
`timestamp` string (produced by `chrono::Local::now()`, an external clock
read) is not modelled; `isPartial` is the source's `is_partial` field. -/

structure TranscriptUpdate where
  text : String
  source : String
  sequence_id : ℕ
  chunk_start_time : ℚ
  isPartial : Bool
  confidence : ℚ
  audio_start_time : ℚ
  audio_end_time : ℚ
  duration : ℚ
  source_type : Option String
  deriving DecidableEq

/-- `ChunkInfo` (`deepgram_provider.rs` lines 98–103): metadata queued before
each send, consumed by the reader task on a final result. -/

structure ChunkInfo where
  audio_start_time : ℚ
  audio_end_time : ℚ
  duration : ℚ
  deriving DecidableEq

/-- `DeepgramAlternative` (`deepgram_provider.rs` lines 48–52). -/

structure DeepgramAlternative where
  transcript : String
  confidence : ℚ
  deriving DecidableEq

/-- `DeepgramChannel` (`deepgram_provider.rs` lines 43–46). -/

structure DeepgramChannel where
  alternatives : List DeepgramAlternative
  deriving DecidableEq

/-- `DeepgramResponse` (`deepgram_provider.rs` lines 32–41; the unused
`response_type` field is omitted). -/

structure DeepgramResponse where
  channel : Option DeepgramChannel
  is_final : Option Bool
  speech_final : Option Bool
  deriving DecidableEq

/-- The mutable state the reader task shares with its transcriber: the
pending-chunk-info FIFO, the interim text buffer, whether an event emitter
has been installed, the fixed source label, and the global
`SEQUENCE_COUNTER` value. -/

structure ReaderState where
  chunk_info_queue : List ChunkInfo
  interim_text : String
  event_emitter : Bool
  source_label : Option String
  counter : ℕ
  deriving DecidableEq

/-- An inbound WebSocket message as the reader loop distinguishes them:
a text frame (with `none` modelling a JSON parse failure), a close frame,
a stream error, or any other frame (ignored). -/

inductive WsMessage where
  | text (r : Option DeepgramResponse)
  | close
  | wsError
  | other
  deriving DecidableEq

/-- `should_emit_final` (`deepgram_provider.rs` lines 508–511): a result is
treated as final when `is_final` is true or `speech_final` (natural pause)
is true. -/

def shouldEmitFinal (resp : DeepgramResponse) : Bool :=
  resp.is_final.getD false || resp.speech_final.getD false

/-- Timestamps taken from the front of the pending-chunk-info queue, with
zero-valued fallbacks when the queue is empty
(`deepgram_provider.rs` lines 535–545 and 588–595). -/

def headStartTime (q : List ChunkInfo) : ℚ :=
  match q.head? with
  | some info => info.audio_start_time
  | none => 0

def headEndTime (q : List ChunkInfo) : ℚ :=
  match q.head? with
  | some info => info.audio_end_time
  | none => 0

def headDuration (q : List ChunkInfo) : ℚ :=
  match q.head? with
  | some info => info.duration
  | none => 0

/-- Processing of one `Message::Text` frame by the reader task
(`deepgram_provider.rs` lines 487–617): parse, take the first alternative,
skip empty transcripts; on a final result clear the interim text, pop one
`ChunkInfo` (zero timestamps if empty), draw a sequence id and emit a
non-partial update; on an interim result overwrite the interim text, peek
(without popping), draw a sequence id and emit a partial update.  Emission
only happens when an emitter is installed (the queue pop and the sequence
draw happen regardless, as in the source). -/

def readerProcessText (st : ReaderState) (r : Option DeepgramResponse) :
    List TranscriptUpdate × ReaderState :=
  match r with
  | none => ([], st)
  | some resp =>
    match resp.channel with
    | none => ([], st)
    | some ch =>
      match ch.alternatives.head? with
      | none => ([], st)
      | some alt =>
        if alt.transcript = "" then ([], st)
        else
          let source_type := st.source_label
          if shouldEmitFinal resp then
            let st1 := { st with interim_text := "" }
            let audio_start_time := headStartTime st1.chunk_info_queue
            let audio_end_time := headEndTime st1.chunk_info_queue
            let dur := headDuration st1.chunk_info_queue
            let sequence_id := st1.counter
            let st2 := { st1 with
              chunk_info_queue := st1.chunk_info_queue.tail
              counter := st1.counter + 1 }
            let update : TranscriptUpdate :=
              { text := alt.transcript
                source := "Audio"
                sequence_id := sequence_id
                chunk_start_time := audio_start_time
                isPartial := false
                confidence := alt.confidence
                audio_start_time := audio_start_time
                audio_end_time := audio_end_time
                duration := dur
                source_type := source_type }
            if st2.event_emitter then ([update], st2) else ([], st2)
          else
            let st1 := { st with interim_text := alt.transcript }
            let audio_start_time := headStartTime st1.chunk_info_queue
            let audio_end_time := headEndTime st1.chunk_info_queue
            let dur := headDuration st1.chunk_info_queue
            let sequence_id := st1.counter
            let st2 := { st1 with counter := st1.counter + 1 }
            let update : TranscriptUpdate :=
              { text := alt.transcript
                source := "Audio"
                sequence_id := sequence_id
                chunk_start_time := audio_start_time
                isPartial := true
                confidence := alt.confidence
                audio_start_time := audio_start_time
                audio_end_time := audio_end_time
                duration := dur
                source_type := source_type }
            if st2.event_emitter then ([update], st2) else ([], st2)

/-- One iteration of the reader loop body dispatching on the message kind
(`deepgram_provider.rs` lines 486–628); the `Bool` is whether the loop
continues (`Close` and stream errors break). -/

def readerProcessMessage (st : ReaderState) (m : WsMessage) :
    List TranscriptUpdate × ReaderState × Bool :=
  match m with
  | .text r =>
    let (es, st2) := readerProcessText st r
    (es, st2, true)
  | .close => ([], st, false)
  | .wsError => ([], st, false)
  | .other => ([], st, true)

/-- The reader task loop (`deepgram_provider.rs` lines 479–629).  Each
inbound message is paired with the value of the live
`connection_generation` at the moment the loop checks it; a mismatch with
`my_generation` makes the reader exit before processing the message. -/

def reader_task (myGen : ℕ) : ReaderState → List (ℕ × WsMessage) →
    List TranscriptUpdate × ReaderState
  | st, [] => ([], st)
  | st, (liveGen, m) :: rest =>
    if liveGen ≠ myGen then
      ([], st)
    else
      let (es, st2, keepGoing) := readerProcessMessage st m
      if keepGoing then
        let (esRest, stFinal) := reader_task myGen st2 rest
        (es ++ esRest, stFinal)
      else
        (es, st2)

/-- A non-empty final Deepgram result used in the witnesses. -/

def altExample : DeepgramAlternative :=
  { transcript := "hola", confidence := 9 / 10 }

def chExample : DeepgramChannel :=
  { alternatives := [altExample] }

def respFinalExample : DeepgramResponse :=
  { channel := some chExample, is_final := some true, speech_final := some false }

def readerStateExample : ReaderState :=
  { chunk_info_queue := [{ audio_start_time := 1, audio_end_time := 2, duration := 1 }]
    interim_text := ""
    event_emitter := true
    source_label := some "user"
    counter := 0 }

/-- Messages for the C4 witness: the first arrives while the live generation
still matches (1), the second after a reconnect bumped it to 2. -/

def staleMsgsExample : List (ℕ × WsMessage) :=
  [(1, .text (some respFinalExample)), (2, .text (some respFinalExample))]

/-! ## C6: worker chunk processing (`worker.rs` lines 224–458). -/

/-- Modelled from the spec: the error taxonomy of §7
(`AudioTooShort{samples, minimum}`, `ModelNotLoaded`,
`EngineFailed(detail)`), as the enum is declared in
`audio/transcription/provider.rs`, which is not in the source tree; the
variants are exactly those matched in `worker.rs` lines 381–399 and
constructed in `worker.rs` / `deepgram_provider.rs`. -/

inductive TranscriptionError where
  | AudioTooShort (samples minimum : ℕ)
  | ModelNotLoaded
  | EngineFailed (detail : String)
  deriving DecidableEq

/-- Modelled from the spec: the `Display` rendering used by
`e.to_string()` for the warning payload (`provider.rs` is not in the source
tree); only the `EngineFailed` text matters to the theorems below. -/

def errorMessage : TranscriptionError → String
  | .AudioTooShort _ _ => "audio too short"
  | .ModelNotLoaded => "model not loaded"
  | .EngineFailed detail => detail

/-- The three engine shapes cloned into a worker
(`worker.rs` lines 190–194). -/

inductive EngineKind where
  | Parakeet
  | Canary
  | Provider
  deriving DecidableEq

/-- Provider-aware confidence threshold (`worker.rs` lines 284–287). -/

def confidenceThreshold (engine : EngineKind) : ℚ :=
  match engine with
  | .Provider => 1 / 100
  | .Parakeet => 0
  | .Canary => 0

/-- Events the worker emits while processing one chunk. -/

inductive WorkerEvent where
  | speechDetected
  | transcriptUpdateEvent (u : TranscriptUpdate)
  | transcriptionWarning (msg : String)
  | transcriptionProgress (completed queued : ℕ)
  deriving DecidableEq

/-- Worker-side shared state: the `chunks_completed` counter, the
session-scoped `SPEECH_DETECTED_EMITTED` flag and the global
`SEQUENCE_COUNTER`. -/

structure WorkerState where
  chunks_completed : ℕ
  speech_detected_emitted : Bool
  counter : ℕ
  deriving DecidableEq

/-- `source_type` derivation from the chunk's device
(`worker.rs` lines 265–269). -/

def chunkSourceType (d : DeviceType) : Option String :=
  match d with
  | .Microphone => some "user"
  | .System => some "interlocutor"
  | .Mixed => none

/-- One worker-loop iteration for a dequeued chunk (`worker.rs` lines
232–433).  `modelLoaded` is the result of the `is_model_loaded` check;
`outcome` is the result of `transcribe_chunk_with_provider` (the provider
call is external); `queued` is the `chunks_queued` value read for the
progress event.  Mirrors the source: the model-not-loaded check and the
`AudioTooShort` / `ModelNotLoaded` error arms count the chunk completed and
`continue` (skipping the progress emit); any other error emits a
`transcription-warning` and falls through; an accepted non-empty result
above the confidence threshold emits `speech-detected` (first time only)
and a `transcript-update`, then falls through to the completion count and
progress event. -/

def workerProcessChunk (engine : EngineKind) (modelLoaded : Bool) (chunk : AudioChunk)
    (outcome : Except TranscriptionError (String × Option ℚ × Bool)) (queued : ℕ)
    (st : WorkerState) : WorkerState × List WorkerEvent :=
  if modelLoaded = false then
    ({ st with chunks_completed := st.chunks_completed + 1 }, [])
  else
    let chunk_timestamp := chunk.timestamp
    let chunk_duration : ℚ := (chunk.data.length : ℚ) / (chunk.sample_rate : ℚ)
    let chunk_source_type := chunkSourceType chunk.device_type
    match outcome with
    | .ok (transcript, confidence_opt, partialFlag) =>
      let threshold := confidenceThreshold engine
      let meets_threshold : Bool :=
        match confidence_opt with
        | some c => decide (threshold ≤ c)
        | none => true
      if transcript.trim ≠ "" ∧ meets_threshold = true then
        let speechEvents : List WorkerEvent :=
          if st.speech_detected_emitted = false then [.speechDetected] else []
        let sequence_id := st.counter
        let audio_start_time := chunk_timestamp
        let audio_end_time := chunk_timestamp + chunk_duration
        let update : TranscriptUpdate :=
          { text := transcript
            source := "Audio"
            sequence_id := sequence_id
            chunk_start_time := chunk_timestamp
            isPartial := partialFlag
            confidence := confidence_opt.getD (85 / 100)
            audio_start_time := audio_start_time
            audio_end_time := audio_end_time
            duration := chunk_duration
            source_type := chunk_source_type }
        let completed := st.chunks_completed + 1
        ({ st with chunks_completed := completed, speech_detected_emitted := true,
                   counter := st.counter + 1 },
          speechEvents ++ [.transcriptUpdateEvent update,
            .transcriptionProgress completed queued])
      else
        let completed := st.chunks_completed + 1
        ({ st with chunks_completed := completed },
          [.transcriptionProgress completed queued])
    | .error e =>
      match e with
      | .AudioTooShort _ _ =>
        ({ st with chunks_completed := st.chunks_completed + 1 }, [])
      | .ModelNotLoaded =>
        ({ st with chunks_completed := st.chunks_completed + 1 }, [])
      | .EngineFailed detail =>
        let completed := st.chunks_completed + 1
        ({ st with chunks_completed := completed },
          [.transcriptionWarning (errorMessage (.EngineFailed detail)),
            .transcriptionProgress completed queued])

/-! ## C10: `convert_to_pcm16` (`deepgram_provider.rs` lines 316–325). -/

/-- Rust `f32::clamp(lo, hi)` on non-NaN inputs. -/

def rustClamp (x lo hi : ℚ) : ℚ :=
  if x < lo then lo else if hi < x then hi else x

/-- Rust float-to-integer `as` cast: truncation toward zero (the values
produced below all fit in `i16`, so saturation never engages). -/

def truncQ (q : ℚ) : ℤ :=
  if q < 0 then ⌈q⌉ else ⌊q⌋

/-- Round-to-nearest with ties to even, from a rational to an integer (the
IEEE-754 default rounding direction). -/

def roundTiesToEven (n : ℚ) : ℤ :=
  let f := ⌊n⌋
  let r := n - (f : ℚ)
  if r < 1 / 2 then f
  else if 1 / 2 < r then f + 1
  else if f % 2 = 0 then f else f + 1

/-- The IEEE-754 binary32 rounding granularity (unit in the last place) at
magnitude `x`: `2^(e-23)` for the binade exponent `e = ⌊log₂ |x|⌋`, floored
at `e = -126` so that the subnormal range rounds at the fixed granularity
`2^(-149)`. -/

def f32Ulp (x : ℚ) : ℚ :=
  (2 : ℚ) ^ (max (Int.log 2 |x|) (-126) - 23)

/-- IEEE-754 binary32 rounding of an exact (rational) value: round to the
nearest multiple of the ulp, ties to even.  Faithful for finite results; the
only use below has `|x| ≤ 32767`, far from overflow. -/

def f32Round (x : ℚ) : ℚ :=
  if x = 0 then 0
  else (roundTiesToEven (x / f32Ulp x) : ℚ) * f32Ulp x

/-- `(sample.clamp(-1.0, 1.0) * 32767.0) as i16`
(`deepgram_provider.rs` lines 320–321): the f32 product rounds to nearest
even (`f32Round`) before the truncating cast. -/

def sampleToI16 (sample : ℚ) : ℤ :=
  truncQ (f32Round (rustClamp sample (-1) 1 * 32767))

/-- `i16::to_le_bytes`: the two's-complement 16-bit representation split into
low byte then high byte. -/

def i16ToLeBytes (n : ℤ) : List ℕ :=
  [(n % 65536).toNat % 256, (n % 65536).toNat / 256]

/-- `convert_to_pcm16` (`deepgram_provider.rs` lines 317–325): a fold pushing
two little-endian bytes per sample, in input order. -/

def convert_to_pcm16 (audio : List ℚ) : List ℕ :=
  audio.foldl (fun bytes sample => bytes ++ i16ToLeBytes (sampleToI16 sample)) []

/-- The same byte stream presented recursively (proof helper). -/

def pcmBytesConcat : List ℚ → List ℕ
  | [] => []
  | sample :: rest => i16ToLeBytes (sampleToI16 sample) ++ pcmBytesConcat rest

/-! ## C7 / C8: ChunkAccumulator properties -/

theorem min_le_of_flush_cond {mn mx d : ℚ} (hminmax : mn ≤ mx) (hC : mx ≤ d ∨ mn ≤ d) :
    mn ≤ d :=
  hC.elim (fun h => hminmax.trans h) id

theorem length_ne_zero_of_min_le {mn : ℚ} {len sr : ℕ} (hmin : 0 < mn)
    (hle : mn ≤ (len : ℚ) / (sr : ℚ)) : len ≠ 0 := by
  intro h
  subst h
  simp only [Nat.cast_zero, zero_div] at hle
  exact absurd (lt_of_lt_of_le hmin hle) (lt_irrefl 0)

/-- C7: `ChunkAccumulator::add` appends the chunk's samples to the buffer and
returns a merged chunk exactly when the accumulated duration (buffer length
divided by sample rate) reaches `min_duration_secs` (or `max_duration_secs`);
otherwise it returns `None` with the samples retained in the buffer; and any
chunk it returns has duration at least `min_duration_secs`.  Hypotheses:
positive minimum duration and sample rates, `min ≤ max` (all four hardware
tiers in `worker.rs` lines 475–480 satisfy these). -/

theorem chunkAccumulator_add_spec (a : ChunkAccumulator) (chunk : AudioChunk) (now : ℚ)
    (hmin : 0 < a.min_duration_secs)
    (hminmax : a.min_duration_secs ≤ a.max_duration_secs)
    (_hsr : 0 < a.sample_rate) (_hcsr : 0 < chunk.sample_rate) :
    ((a.add chunk now).1.isSome = true ↔
      a.min_duration_secs ≤ addDuration a chunk ∨
        a.max_duration_secs ≤ addDuration a chunk)
    ∧ ((a.add chunk now).1 = none → ((a.add chunk now).2).buffer = a.buffer ++ chunk.data)
    ∧ (∀ c, (a.add chunk now).1 = some c →
        c.data = a.buffer ++ chunk.data ∧
        a.min_duration_secs ≤ (c.data.length : ℚ) / (c.sample_rate : ℚ)) := by
  by_cases hE : a.buffer.isEmpty
  · have hb : a.buffer = [] := by simpa using hE
    have hd : addDuration a chunk = ((chunk.data.length : ℕ) : ℚ) / (chunk.sample_rate : ℚ) := by
      simp [addDuration, hE, hb]
    by_cases hC : a.max_duration_secs ≤ ((chunk.data.length : ℕ) : ℚ) / (chunk.sample_rate : ℚ)
        ∨ a.min_duration_secs ≤ ((chunk.data.length : ℕ) : ℚ) / (chunk.sample_rate : ℚ)
    · have hmle : a.min_duration_secs ≤ ((chunk.data.length : ℕ) : ℚ) / (chunk.sample_rate : ℚ) :=
        min_le_of_flush_cond hminmax hC
      have hne : chunk.data ≠ [] := by
        intro h
        exact length_ne_zero_of_min_le hmin hmle (by simp [h])
      have hresult : a.add chunk now =
          (some { data := chunk.data, sample_rate := chunk.sample_rate,
                  timestamp := chunk.timestamp, chunk_id := a.next_chunk_id,
                  device_type := chunk.device_type },
            { a with buffer := [], first_timestamp := chunk.timestamp,
                     device_type := chunk.device_type, sample_rate := chunk.sample_rate,
                     last_add_time := now, next_chunk_id := a.next_chunk_id + 1 }) := by
        simp [ChunkAccumulator.add, ChunkAccumulator.flush, hE, hb, hC, hne]
      refine ⟨?_, ?_, ?_⟩
      · rw [hresult, hd]
        exact iff_of_true rfl (Or.symm hC)
      · intro hnone
        rw [hresult] at hnone
        exact absurd hnone (by simp)
      · intro c hc
        rw [hresult] at hc
        simp only [Option.some.injEq] at hc
        subst hc
        exact ⟨by simp [hb], hmle⟩
    · have hresult1 : (a.add chunk now).1 = none := by
        simp [ChunkAccumulator.add, hE, hb, hC]
      have hresult2 : ((a.add chunk now).2).buffer = a.buffer ++ chunk.data := by
        simp [ChunkAccumulator.add, hE, hb, hC]
      refine ⟨?_, fun _ => hresult2, ?_⟩
      · rw [hresult1, hd]
        simp only [Option.isSome_none, Bool.false_eq_true, false_iff]
        intro h
        exact hC (Or.symm h)
      · intro c hc
        rw [hresult1] at hc
        exact absurd hc (by simp)
  · have hb : a.buffer ≠ [] := by simpa using hE
    have hd : addDuration a chunk =
        ((a.buffer.length : ℚ) + (chunk.data.length : ℚ)) / (a.sample_rate : ℚ) := by
      simp [addDuration, hE, Nat.cast_add]
    by_cases hC : a.max_duration_secs ≤
          ((a.buffer.length : ℚ) + (chunk.data.length : ℚ)) / (a.sample_rate : ℚ)
        ∨ a.min_duration_secs ≤
          ((a.buffer.length : ℚ) + (chunk.data.length : ℚ)) / (a.sample_rate : ℚ)
    · have hmle : a.min_duration_secs ≤
          ((a.buffer.length : ℚ) + (chunk.data.length : ℚ)) / (a.sample_rate : ℚ) :=
        min_le_of_flush_cond hminmax hC
      have hne : a.buffer ++ chunk.data ≠ [] := by simp [hb]
      have hresult : a.add chunk now =
          (some { data := a.buffer ++ chunk.data, sample_rate := a.sample_rate,
                  timestamp := a.first_timestamp, chunk_id := a.next_chunk_id,
                  device_type := a.device_type },
            { a with buffer := [], last_add_time := now,
                     next_chunk_id := a.next_chunk_id + 1 }) := by
        simp [ChunkAccumulator.add, ChunkAccumulator.flush, hE, hC, hne]
      refine ⟨?_, ?_, ?_⟩
      · rw [hresult, hd]
        exact iff_of_true rfl (Or.symm hC)
      · intro hnone
        rw [hresult] at hnone
        exact absurd hnone (by simp)
      · intro c hc
        rw [hresult] at hc
        simp only [Option.some.injEq] at hc
        subst hc
        refine ⟨rfl, ?_⟩
        simp only [List.length_append, Nat.cast_add]
        exact hmle
    · have hresult1 : (a.add chunk now).1 = none := by
        simp only [ChunkAccumulator.add]
        simp [hE, hC]
      have hresult2 : ((a.add chunk now).2).buffer = a.buffer ++ chunk.data := by
        simp only [ChunkAccumulator.add]
        simp [hE, hC]
      refine ⟨?_, fun _ => hresult2, ?_⟩
      · rw [hresult1, hd]
        simp only [Option.isSome_none, Bool.false_eq_true, false_iff]
        intro h
        exact hC (Or.symm h)
      · intro c hc
        rw [hresult1] at hc
        exact absurd hc (by simp)

/-- Witness for `chunkAccumulator_add_spec` at a concrete accumulator and
chunk. -/

theorem chunkAccumulator_add_spec_witness :
    ((accumulatorExample.add chunkExample 4).1.isSome = true ↔
      accumulatorExample.min_duration_secs ≤ addDuration accumulatorExample chunkExample ∨
        accumulatorExample.max_duration_secs ≤ addDuration accumulatorExample chunkExample)
    ∧ ((accumulatorExample.add chunkExample 4).1 = none →
        ((accumulatorExample.add chunkExample 4).2).buffer =
          accumulatorExample.buffer ++ chunkExample.data)
    ∧ (∀ c, (accumulatorExample.add chunkExample 4).1 = some c →
        c.data = accumulatorExample.buffer ++ chunkExample.data ∧
        accumulatorExample.min_duration_secs ≤ (c.data.length : ℚ) / (c.sample_rate : ℚ)) :=
  chunkAccumulator_add_spec accumulatorExample chunkExample 4
    (by decide) (by decide) (by decide) (by decide)

/-- C8 (amended): `ChunkAccumulator::flush` returns `None` exactly when the
buffer is empty; on a non-empty buffer it returns one `AudioChunk` carrying
exactly the buffered samples in order with timestamp `first_timestamp`; after
the call the buffer is empty — but `first_timestamp` is left unchanged (it is
not reset; the next `add` overwrites it because the buffer is then empty). -/

theorem chunkAccumulator_flush_spec (a : ChunkAccumulator) :
    (a.flush.1 = none ↔ a.buffer = [])
    ∧ ((a.flush.2).buffer = [] ∧ (a.flush.2).first_timestamp = a.first_timestamp)
    ∧ (∀ c, a.flush.1 = some c →
        c.data = a.buffer ∧ c.timestamp = a.first_timestamp ∧
        c.chunk_id = a.next_chunk_id ∧ c.sample_rate = a.sample_rate) := by
  by_cases hE : a.buffer.isEmpty
  · have hb : a.buffer = [] := by simpa using hE
    have hres : a.flush = (none, a) := by simp [ChunkAccumulator.flush, hE]
    refine ⟨by simp [hres, hb], by simp [hres, hb], ?_⟩
    intro c hc
    rw [hres] at hc
    exact absurd hc (by simp)
  · have hb : a.buffer ≠ [] := by simpa using hE
    have hres : a.flush =
        (some { data := a.buffer, sample_rate := a.sample_rate,
                timestamp := a.first_timestamp, chunk_id := a.next_chunk_id,
                device_type := a.device_type },
          { a with buffer := [], next_chunk_id := a.next_chunk_id + 1 }) := by
      simp [ChunkAccumulator.flush, hE]
    refine ⟨by simp [hres, hb], by simp [hres], ?_⟩
    intro c hc
    rw [hres] at hc
    simp only [Option.some.injEq] at hc
    subst hc
    exact ⟨rfl, rfl, rfl, rfl⟩

/-- Witness for `chunkAccumulator_flush_spec` at a concrete accumulator
(non-empty buffer, so the `some` branch is exercised). -/

theorem chunkAccumulator_flush_spec_witness :
    (({ accumulatorExample with buffer := [0, 0] }.flush.1 = none ↔
        ({ accumulatorExample with buffer := [0, 0] } : ChunkAccumulator).buffer = [])
      ∧ (({ accumulatorExample with buffer := [0, 0] }.flush.2).buffer = [] ∧
          ({ accumulatorExample with buffer := [0, 0] }.flush.2).first_timestamp =
            ({ accumulatorExample with buffer := [0, 0] } : ChunkAccumulator).first_timestamp)
      ∧ (∀ c, { accumulatorExample with buffer := [0, 0] }.flush.1 = some c →
          c.data = ({ accumulatorExample with buffer := [0, 0] } : ChunkAccumulator).buffer ∧
          c.timestamp =
            ({ accumulatorExample with buffer := [0, 0] } : ChunkAccumulator).first_timestamp ∧
          c.chunk_id =
            ({ accumulatorExample with buffer := [0, 0] } : ChunkAccumulator).next_chunk_id ∧
          c.sample_rate =
            ({ accumulatorExample with buffer := [0, 0] } : ChunkAccumulator).sample_rate)) :=
  chunkAccumulator_flush_spec { accumulatorExample with buffer := [0, 0] }

/-- C8 counterexample: `flush` does NOT reset the timestamps.  A flush of a
non-empty buffer whose `first_timestamp` is 5 leaves `first_timestamp = 5`,
not the initial value `0` that `ChunkAccumulator::new` establishes. -/

theorem chunkAccumulator_flush_no_reset_cex :
    (({ buffer := [0], sample_rate := 16000, first_timestamp := 5, device_type := .Mixed,
        next_chunk_id := 0, min_duration_secs := 1, max_duration_secs := 8,
        last_add_time := 0, flush_timeout := 2 } : ChunkAccumulator).flush.2).first_timestamp ≠
      (ChunkAccumulator.new 1 8 2000 0).first_timestamp := by
  decide

/-- C9: calling `stop_recording` while `IS_RECORDING` is false returns `Ok`
immediately, emits no lifecycle event whatsoever, and leaves the recording
flag unchanged — for every possible outcome of the external interactions. -/

theorem stop_recording_idle_noop (env : StopEnv) :
    stop_recording false env = (Except.ok (), ([], false)) :=
  rfl

/-- C3: for every enqueue attempt, `chunks_queued` is incremented (by exactly
one, whatever the send outcome); on a 5 s send timeout exactly that one chunk
is discarded (the channel is unchanged), `chunks_dropped` increments by
exactly 1, and the dispatcher keeps going instead of blocking; on a
successful send the chunk is appended to the channel and nothing is
dropped. -/

theorem dispatch_accumulated_spec (accumulated : AudioChunk) (channel : List AudioChunk)
    (q d : ℕ) (outcome : SendOutcome) :
    (dispatch_accumulated accumulated channel q d outcome).chunks_queued = q + 1
    ∧ (outcome = .sendTimeout →
        (dispatch_accumulated accumulated channel q d outcome).keepGoing = true ∧
        (dispatch_accumulated accumulated channel q d outcome).channel = channel ∧
        (dispatch_accumulated accumulated channel q d outcome).chunks_dropped = d + 1)
    ∧ (outcome = .sent →
        (dispatch_accumulated accumulated channel q d outcome).channel =
          channel ++ [accumulated] ∧
        (dispatch_accumulated accumulated channel q d outcome).chunks_dropped = d) := by
  cases outcome
  · exact ⟨rfl, nofun, fun _ => ⟨rfl, rfl⟩⟩
  · exact ⟨rfl, nofun, nofun⟩
  · exact ⟨rfl, fun _ => ⟨rfl, rfl, rfl⟩, nofun⟩

/-- Witness for `dispatch_accumulated_spec` on the timeout outcome. -/

theorem dispatch_accumulated_spec_witness :
    (dispatch_accumulated chunkExample [] 4 0 .sendTimeout).chunks_queued = 4 + 1
    ∧ ((dispatch_accumulated chunkExample [] 4 0 .sendTimeout).keepGoing = true ∧
        (dispatch_accumulated chunkExample [] 4 0 .sendTimeout).channel = [] ∧
        (dispatch_accumulated chunkExample [] 4 0 .sendTimeout).chunks_dropped = 0 + 1) :=
  ⟨(dispatch_accumulated_spec chunkExample [] 4 0 .sendTimeout).1,
    (dispatch_accumulated_spec chunkExample [] 4 0 .sendTimeout).2.1 rfl⟩

theorem runVerification_spec (obs : ℕ → Counters) :
    ∀ r i,
      (∃ k, k ≤ r ∧ (obs (i + k)).queued = (obs (i + k)).completed + (obs (i + k)).dropped ∧
        (∀ j, j < k → (obs (i + j)).queued ≠ (obs (i + j)).completed + (obs (i + j)).dropped) ∧
        runVerification obs i r = summaryOf (obs (i + k))) ∨
      ((∀ k, k ≤ r → (obs (i + k)).queued ≠ (obs (i + k)).completed + (obs (i + k)).dropped) ∧
        runVerification obs i r = lossOf (obs (i + r))) := by
  intro r
  induction r with
  | zero =>
    intro i
    by_cases h : (obs i).queued = (obs i).completed + (obs i).dropped
    · exact Or.inl ⟨0, le_refl 0, by simpa using h, fun j hj => absurd hj (Nat.not_lt_zero j),
        by simp [runVerification, h]⟩
    · refine Or.inr ⟨?_, by simp [runVerification, h]⟩
      intro k hk
      interval_cases k
      simpa using h
  | succ r ih =>
    intro i
    by_cases h : (obs i).queued = (obs i).completed + (obs i).dropped
    · exact Or.inl ⟨0, Nat.zero_le _, by simpa using h, fun j hj => absurd hj (Nat.not_lt_zero j),
        by simp [runVerification, h]⟩
    · have hstep : runVerification obs i (r + 1) = runVerification obs (i + 1) r := by
        simp [runVerification, h]
      rcases ih (i + 1) with ⟨k, hk, hbal, hfirst, heq⟩ | ⟨hall, heq⟩
      · refine Or.inl ⟨k + 1, Nat.succ_le_succ hk, ?_, ?_, ?_⟩
        · have : i + (k + 1) = i + 1 + k := by omega
          rw [this]; exact hbal
        · intro j hj
          cases j with
          | zero => simpa using h
          | succ j' =>
            have : i + (j' + 1) = i + 1 + j' := by omega
            rw [this]
            exact hfirst j' (Nat.lt_of_succ_lt_succ hj)
        · have hidx : i + (k + 1) = i + 1 + k := by omega
          rw [hstep, heq, hidx]
      · refine Or.inr ⟨?_, ?_⟩
        · intro k hk
          cases k with
          | zero => simpa using h
          | succ k' =>
            have : i + (k' + 1) = i + 1 + k' := by omega
            rw [this]
            exact hall k' (Nat.le_of_succ_le_succ hk)
        · have hidx : i + (r + 1) = i + 1 + r := by omega
          rw [hstep, heq, hidx]

/-- C1: the shutdown verification loop always emits exactly one of the two
terminal events.  If some pass `k ≤ 10` (the initial check plus up to 10
retries at 100 ms spacing) observes balanced counters
(`chunks_queued = chunks_completed + chunks_dropped`), the first such pass
emits the `transcription-summary` event — with status `"success"` when
`chunks_dropped = 0` and `"partial_loss"` otherwise; only when all 10 retries
still observe a mismatch is `transcript-chunk-loss-detected` emitted
instead. -/

theorem shutdownVerification_spec (obs : ℕ → Counters) :
    (∃ k, k ≤ 10 ∧ (obs k).queued = (obs k).completed + (obs k).dropped ∧
      (∀ j, j < k → (obs j).queued ≠ (obs j).completed + (obs j).dropped) ∧
      shutdownVerification obs =
        SummaryEvent.transcriptionSummary (obs k).queued (obs k).completed (obs k).dropped
          (if (obs k).dropped = 0 then "success" else "partial_loss")) ∨
    ((∀ k, k ≤ 10 → (obs k).queued ≠ (obs k).completed + (obs k).dropped) ∧
      shutdownVerification obs =
        SummaryEvent.chunkLossDetected (obs 10).queued (obs 10).completed (obs 10).dropped
          ((obs 10).queued - ((obs 10).completed + (obs 10).dropped))) := by
  have h := runVerification_spec obs 10 0
  simpa [shutdownVerification, summaryOf, lossOf] using h

theorem logIdsOf_append (l : List (ℕ × ℕ)) (u i : ℕ) :
    logIdsOf (l ++ [(u, i)]) = logIdsOf l ++ [i] := by
  simp [logIdsOf]

theorem taskIdsOf_append_self (l : List (ℕ × ℕ)) (u i : ℕ) :
    taskIdsOf (l ++ [(u, i)]) u = taskIdsOf l u ++ [i] := by
  simp [taskIdsOf]

theorem taskIdsOf_append_ne (l : List (ℕ × ℕ)) (u v i : ℕ) (hne : v ≠ u) :
    taskIdsOf (l ++ [(u, i)]) v = taskIdsOf l v := by
  simp [taskIdsOf, List.filter_append, Ne.symm hne]

theorem mem_logIdsOf_of_mem_taskIdsOf {l : List (ℕ × ℕ)} {u x : ℕ}
    (hx : x ∈ taskIdsOf l u) : x ∈ logIdsOf l := by
  simp only [taskIdsOf, List.mem_map, List.mem_filter] at hx
  obtain ⟨p, ⟨hpl, _⟩, hpx⟩ := hx
  exact List.mem_map.mpr ⟨p, hpl, hpx⟩

theorem chain_lt_append_singleton {l : List ℕ} {c : ℕ}
    (hl : List.Chain' (· < ·) l) (hall : ∀ x ∈ l, x < c) :
    List.Chain' (· < ·) (l ++ [c]) := by
  refine List.Chain'.append hl (List.chain'_singleton c) ?_
  intro x hx y hy
  have hy2 : c = y := by simpa using hy
  subst hy2
  obtain ⟨hne, hx2⟩ := List.mem_getLast?_eq_getLast hx
  rw [hx2]
  exact hall _ (List.getLast_mem hne)

theorem emitInv_init (quotas : List ℕ) : EmitInv (initEmitSystem quotas) := by
  refine ⟨?_, ?_, ?_, ?_, ?_, ?_, ?_⟩
  · intro x hx
    exact absurd hx (by simp [initEmitSystem, logIdsOf])
  · intro t ts id ht hp
    simp only [initEmitSystem, Option.map_eq_some'] at ht
    obtain ⟨r, _, hr⟩ := ht
    rw [← hr] at hp
    exact absurd hp (by simp)
  · simp [initEmitSystem, logIdsOf]
  · intro x hx
    exact absurd hx (by simp [initEmitSystem, logIdsOf])
  · intro t1 t2 ts1 ts2 id1 id2 _ ht1 _ hp1 _
    simp only [initEmitSystem, Option.map_eq_some'] at ht1
    obtain ⟨r, _, hr⟩ := ht1
    rw [← hr] at hp1
    exact absurd hp1 (by simp)
  · intro t
    simp [initEmitSystem, taskIdsOf]
  · intro t ts id ht hp x hx
    exact absurd hx (by simp [initEmitSystem, taskIdsOf])

theorem emitInv_step {s : EmitSystem} (h : EmitInv s) (t : ℕ) : EmitInv (emitStep s t) := by
  cases hts : s.tasks t with
  | none =>
    have hstep : emitStep s t = s := by simp [emitStep, hts]
    rw [hstep]; exact h
  | some ts =>
    cases hp : ts.pending with
    | some id =>
      have hstep : emitStep s t = { s with
          tasks := fun u => if u = t then some { ts with pending := none } else s.tasks u
          log := s.log ++ [(t, id)] } := by
        simp [emitStep, hts, hp]
      rw [hstep]
      have hidlt : id < s.counter := h.pend_lt t ts id hts hp
      have hidnotin : ∀ x ∈ logIdsOf s.log, x ≠ id :=
        fun x hx => h.log_pend x hx t ts id hts hp
      have htasks : ∀ u tsu,
          (if u = t then some { ts with pending := none } else s.tasks u) = some tsu →
          (u = t ∧ tsu = { ts with pending := none }) ∨ (u ≠ t ∧ s.tasks u = some tsu) := by
        intro u tsu htu
        by_cases hu : u = t
        · rw [if_pos hu] at htu
          injection htu with he
          exact Or.inl ⟨hu, he.symm⟩
        · rw [if_neg hu] at htu
          exact Or.inr ⟨hu, htu⟩
      refine ⟨?_, ?_, ?_, ?_, ?_, ?_, ?_⟩
      · intro x hx
        have hx2 : x ∈ logIdsOf (s.log ++ [(t, id)]) := hx
        rw [logIdsOf_append] at hx2
        show x < s.counter
        rcases List.mem_append.mp hx2 with hx3 | hx3
        · exact h.log_lt x hx3
        · have hxid : x = id := by simpa using hx3
          rw [hxid]; exact hidlt
      · intro u tsu idu htu hpu
        have htu2 : (if u = t then some { ts with pending := none } else s.tasks u)
            = some tsu := htu
        show idu < s.counter
        rcases htasks u tsu htu2 with ⟨_, rfl⟩ | ⟨_, htu3⟩
        · exact absurd hpu (by simp)
        · exact h.pend_lt u tsu idu htu3 hpu
      · show (logIdsOf (s.log ++ [(t, id)])).Nodup
        rw [logIdsOf_append]
        refine List.Nodup.append h.log_nodup (List.nodup_singleton id) ?_
        intro x hx hx2
        have hxid : x = id := by simpa using hx2
        exact hidnotin x hx hxid
      · intro x hx u tsu idu htu hpu
        have hx2 : x ∈ logIdsOf (s.log ++ [(t, id)]) := hx
        have htu2 : (if u = t then some { ts with pending := none } else s.tasks u)
            = some tsu := htu
        rw [logIdsOf_append] at hx2
        rcases htasks u tsu htu2 with ⟨_, rfl⟩ | ⟨hu, htu3⟩
        · exact absurd hpu (by simp)
        · rcases List.mem_append.mp hx2 with hx3 | hx3
          · exact h.log_pend x hx3 u tsu idu htu3 hpu
          · have hxid : x = id := by simpa using hx3
            rw [hxid]
            exact h.pend_pend t u ts tsu id idu (fun he => hu he.symm) hts htu3 hp hpu
      · intro t1 t2 ts1 ts2 id1 id2 hne ht1 ht2 hp1 hp2
        have ht1b : (if t1 = t then some { ts with pending := none } else s.tasks t1)
            = some ts1 := ht1
        have ht2b : (if t2 = t then some { ts with pending := none } else s.tasks t2)
            = some ts2 := ht2
        rcases htasks t1 ts1 ht1b with ⟨_, rfl⟩ | ⟨_, ht1c⟩
        · exact absurd hp1 (by simp)
        · rcases htasks t2 ts2 ht2b with ⟨_, rfl⟩ | ⟨_, ht2c⟩
          · exact absurd hp2 (by simp)
          · exact h.pend_pend t1 t2 ts1 ts2 id1 id2 hne ht1c ht2c hp1 hp2
      · intro u
        show List.Chain' (· < ·) (taskIdsOf (s.log ++ [(t, id)]) u)
        by_cases hu : u = t
        · subst hu
          rw [taskIdsOf_append_self]
          exact chain_lt_append_singleton (h.task_chain u) (h.task_pend u ts id hts hp)
        · rw [taskIdsOf_append_ne _ _ _ _ hu]
          exact h.task_chain u
      · intro u tsu idu htu hpu x hx
        have htu2 : (if u = t then some { ts with pending := none } else s.tasks u)
            = some tsu := htu
        have hx2 : x ∈ taskIdsOf (s.log ++ [(t, id)]) u := hx
        rcases htasks u tsu htu2 with ⟨_, rfl⟩ | ⟨hu, htu3⟩
        · exact absurd hpu (by simp)
        · rw [taskIdsOf_append_ne _ _ _ _ hu] at hx2
          exact h.task_pend u tsu idu htu3 hpu x hx2
    | none =>
      cases hr : ts.remaining with
      | zero =>
        have hstep : emitStep s t = s := by simp [emitStep, hts, hp, hr]
        rw [hstep]; exact h
      | succ r =>
        have hstep : emitStep s t = { s with
            counter := s.counter + 1
            tasks := fun u =>
              if u = t then some { pending := some s.counter, remaining := r }
              else s.tasks u } := by
          simp [emitStep, hts, hp, hr]
        rw [hstep]
        have htasks : ∀ u tsu,
            (if u = t then some { pending := some s.counter, remaining := r } else s.tasks u)
              = some tsu →
            (u = t ∧ tsu = { pending := some s.counter, remaining := r }) ∨
              (u ≠ t ∧ s.tasks u = some tsu) := by
          intro u tsu htu
          by_cases hu : u = t
          · rw [if_pos hu] at htu
            injection htu with he
            exact Or.inl ⟨hu, he.symm⟩
          · rw [if_neg hu] at htu
            exact Or.inr ⟨hu, htu⟩
        refine ⟨?_, ?_, ?_, ?_, ?_, ?_, ?_⟩
        · intro x hx
          have hx2 : x ∈ logIdsOf s.log := hx
          show x < s.counter + 1
          exact Nat.lt_succ_of_lt (h.log_lt x hx2)
        · intro u tsu idu htu hpu
          have htu2 : (if u = t then some { pending := some s.counter, remaining := r }
              else s.tasks u) = some tsu := htu
          show idu < s.counter + 1
          rcases htasks u tsu htu2 with ⟨_, rfl⟩ | ⟨_, htu3⟩
          · have hcid : s.counter = idu := by simpa using hpu
            rw [← hcid]
            exact Nat.lt_succ_self _
          · exact Nat.lt_succ_of_lt (h.pend_lt u tsu idu htu3 hpu)
        · exact h.log_nodup
        · intro x hx u tsu idu htu hpu
          have hx2 : x ∈ logIdsOf s.log := hx
          have htu2 : (if u = t then some { pending := some s.counter, remaining := r }
              else s.tasks u) = some tsu := htu
          rcases htasks u tsu htu2 with ⟨_, rfl⟩ | ⟨_, htu3⟩
          · have hcid : s.counter = idu := by simpa using hpu
            rw [← hcid]
            exact Nat.ne_of_lt (h.log_lt x hx2)
          · exact h.log_pend x hx2 u tsu idu htu3 hpu
        · intro t1 t2 ts1 ts2 id1 id2 hne ht1 ht2 hp1 hp2
          have ht1b : (if t1 = t then some { pending := some s.counter, remaining := r }
              else s.tasks t1) = some ts1 := ht1
          have ht2b : (if t2 = t then some { pending := some s.counter, remaining := r }
              else s.tasks t2) = some ts2 := ht2
          rcases htasks t1 ts1 ht1b with ⟨he1, rfl⟩ | ⟨_, ht1c⟩
          · rcases htasks t2 ts2 ht2b with ⟨he2, rfl⟩ | ⟨_, ht2c⟩
            · exact absurd (he1.trans he2.symm) hne
            · have hcid : s.counter = id1 := by simpa using hp1
              have hid2 : id2 < s.counter := h.pend_lt t2 ts2 id2 ht2c hp2
              rw [← hcid]
              exact (Nat.ne_of_lt hid2).symm
          · rcases htasks t2 ts2 ht2b with ⟨he2, rfl⟩ | ⟨_, ht2c⟩
            · have hcid : s.counter = id2 := by simpa using hp2
              have hid1 : id1 < s.counter := h.pend_lt t1 ts1 id1 ht1c hp1
              rw [← hcid]
              exact Nat.ne_of_lt hid1
            · exact h.pend_pend t1 t2 ts1 ts2 id1 id2 hne ht1c ht2c hp1 hp2
        · exact h.task_chain
        · intro u tsu idu htu hpu x hx
          have htu2 : (if u = t then some { pending := some s.counter, remaining := r }
              else s.tasks u) = some tsu := htu
          have hx2 : x ∈ taskIdsOf s.log u := hx
          rcases htasks u tsu htu2 with ⟨_, rfl⟩ | ⟨_, htu3⟩
          · have hcid : s.counter = idu := by simpa using hpu
            rw [← hcid]
            exact h.log_lt x (mem_logIdsOf_of_mem_taskIdsOf hx2)
          · exact h.task_pend u tsu idu htu3 hpu x hx2

theorem emitInv_run {s : EmitSystem} (h : EmitInv s) (sched : List ℕ) :
    EmitInv (emitRun s sched) := by
  induction sched generalizing s with
  | nil => exact h
  | cons t rest ih => exact ih (emitInv_step h t)

/-- C2 (amended): over every interleaving of the emitting tasks, no two
emissions ever carry the same `sequence_id` (each id comes from a distinct
`fetch_add` return value), and the emissions of any single task appear in
strictly increasing `sequence_id` order.  (Global emission order across
concurrently running tasks is NOT totally ordered by `sequence_id`; see the
counterexample.) -/

theorem sequence_ids_unique_and_task_ordered (quotas sched : List ℕ) :
    (logIdsOf (emitRun (initEmitSystem quotas) sched).log).Nodup ∧
    ∀ t, List.Chain' (· < ·) (taskIdsOf (emitRun (initEmitSystem quotas) sched).log t) :=
  let h := emitInv_run (emitInv_init quotas) sched
  ⟨h.log_nodup, h.task_chain⟩

/-- C2 counterexample: with two concurrent emitters (e.g. the mic and system
Deepgram reader tasks) each performing `fetch_add` and then `emit`, the
schedule "task 0 fetches, task 1 fetches, task 1 emits, task 0 emits" makes
the first emission carry sequence id 1 and the second emission carry
sequence id 0 — so an update emitted earlier has the LARGER sequence id,
refuting `A before B → A.sequence_id < B.sequence_id`. -/

theorem sequence_emission_order_cex :
    (emitRun (initEmitSystem [1, 1]) [0, 1, 1, 0]).log = [(1, 1), (0, 0)] ∧
    ¬ List.Pairwise (fun a b : ℕ × ℕ => a.2 < b.2)
        (emitRun (initEmitSystem [1, 1]) [0, 1, 1, 0]).log := by
  refine ⟨by decide, ?_⟩
  intro hpair
  rw [show (emitRun (initEmitSystem [1, 1]) [0, 1, 1, 0]).log = [(1, 1), (0, 0)] by decide]
      at hpair
  have := List.rel_of_pairwise_cons hpair (List.mem_singleton.mpr rfl)
  exact absurd this (by decide)

/-- C4: a reader task spawned with generation `myGen` emits nothing for any
message from position `k` on, provided the live generation differs from
`myGen` at every check from position `k` on (which is what a reconnect
causes, since `connect_websocket` increments the generation and generations
are never reused): its emissions are exactly those of the run truncated to
the first `k` messages. -/

theorem reader_stale_generation_spec (myGen : ℕ) (st : ReaderState)
    (msgs : List (ℕ × WsMessage)) (k : ℕ)
    (hstale : ∀ j, ∀ hj : j < msgs.length, k ≤ j → (msgs.get ⟨j, hj⟩).1 ≠ myGen) :
    (reader_task myGen st msgs).1 = (reader_task myGen st (msgs.take k)).1 := by
  induction msgs generalizing st k with
  | nil => simp [reader_task]
  | cons hd rest ih =>
    obtain ⟨g, m⟩ := hd
    cases k with
    | zero =>
      have hg : g ≠ myGen := hstale 0 (by simp) (Nat.le_refl 0)
      simp [reader_task, hg]
    | succ k2 =>
      by_cases hgd : g = myGen
      · have hcond : ¬(g ≠ myGen) := fun hc => hc hgd
        have hshift : ∀ j, ∀ hj : j < rest.length, k2 ≤ j →
            (rest.get ⟨j, hj⟩).1 ≠ myGen := by
          intro j hj hkj
          have hj2 : j + 1 < ((g, m) :: rest).length := by simpa using Nat.succ_lt_succ hj
          have hs := hstale (j + 1) hj2 (Nat.succ_le_succ hkj)
          simpa using hs
        rw [List.take_succ_cons]
        rcases hpm : readerProcessMessage st m with ⟨es, st2, kg⟩
        cases kg with
        | true =>
          have hL : (reader_task myGen st ((g, m) :: rest)).1
              = es ++ (reader_task myGen st2 rest).1 := by
            simp [reader_task, hcond, hpm]
          have hR : (reader_task myGen st ((g, m) :: rest.take k2)).1
              = es ++ (reader_task myGen st2 (rest.take k2)).1 := by
            simp [reader_task, hcond, hpm]
          rw [hL, hR, ih st2 k2 hshift]
        | false =>
          have hL : (reader_task myGen st ((g, m) :: rest)).1 = es := by
            simp [reader_task, hcond, hpm]
          have hR : (reader_task myGen st ((g, m) :: rest.take k2)).1 = es := by
            simp [reader_task, hcond, hpm]
          rw [hL, hR]
      · rw [List.take_succ_cons]
        simp [reader_task, hgd]

/-- Witness for `reader_stale_generation_spec`: with the generation diverging
from message 1 on, the run emits exactly what the run truncated to the first
message emits. -/

theorem reader_stale_generation_spec_witness :
    (reader_task 1 readerStateExample staleMsgsExample).1 =
      (reader_task 1 readerStateExample (staleMsgsExample.take 1)).1 :=
  reader_stale_generation_spec 1 readerStateExample staleMsgsExample 1 (by decide)

/-- C5: for a non-empty result reaching the reader (some channel, a first
alternative, non-empty transcript) with an emitter installed: when the
result is final (`is_final` or the `speech_final` natural-pause signal), the
reader pops exactly one entry off the front of the pending-chunk-info FIFO
and emits exactly one `TranscriptUpdate` with `is_partial = false` whose
timestamps come from that entry (zero-valued when the queue is empty, never
blocking); when the result is non-final it pops nothing and emits exactly
one `TranscriptUpdate` with `is_partial = true`. -/

theorem reader_result_emission_spec (st : ReaderState) (resp : DeepgramResponse)
    (ch : DeepgramChannel) (alt : DeepgramAlternative)
    (hch : resp.channel = some ch) (halt : ch.alternatives.head? = some alt)
    (hne : alt.transcript ≠ "") (hemit : st.event_emitter = true) :
    (shouldEmitFinal resp = true →
      (readerProcessText st (some resp)).2.chunk_info_queue = st.chunk_info_queue.tail ∧
      (readerProcessText st (some resp)).1 =
        [{ text := alt.transcript, source := "Audio", sequence_id := st.counter,
           chunk_start_time := headStartTime st.chunk_info_queue, isPartial := false,
           confidence := alt.confidence,
           audio_start_time := headStartTime st.chunk_info_queue,
           audio_end_time := headEndTime st.chunk_info_queue,
           duration := headDuration st.chunk_info_queue,
           source_type := st.source_label }]) ∧
    (shouldEmitFinal resp = false →
      (readerProcessText st (some resp)).2.chunk_info_queue = st.chunk_info_queue ∧
      (readerProcessText st (some resp)).1 =
        [{ text := alt.transcript, source := "Audio", sequence_id := st.counter,
           chunk_start_time := headStartTime st.chunk_info_queue, isPartial := true,
           confidence := alt.confidence,
           audio_start_time := headStartTime st.chunk_info_queue,
           audio_end_time := headEndTime st.chunk_info_queue,
           duration := headDuration st.chunk_info_queue,
           source_type := st.source_label }]) := by
  constructor
  · intro hfinal
    have hres : readerProcessText st (some resp) =
        ([{ text := alt.transcript, source := "Audio", sequence_id := st.counter,
            chunk_start_time := headStartTime st.chunk_info_queue, isPartial := false,
            confidence := alt.confidence,
            audio_start_time := headStartTime st.chunk_info_queue,
            audio_end_time := headEndTime st.chunk_info_queue,
            duration := headDuration st.chunk_info_queue,
            source_type := st.source_label }],
          { st with interim_text := "", chunk_info_queue := st.chunk_info_queue.tail,
                    counter := st.counter + 1 }) := by
      simp [readerProcessText, hch, halt, hne, hfinal, hemit]
    rw [hres]
    exact ⟨rfl, rfl⟩
  · intro hnotfinal
    have hres : readerProcessText st (some resp) =
        ([{ text := alt.transcript, source := "Audio", sequence_id := st.counter,
            chunk_start_time := headStartTime st.chunk_info_queue, isPartial := true,
            confidence := alt.confidence,
            audio_start_time := headStartTime st.chunk_info_queue,
            audio_end_time := headEndTime st.chunk_info_queue,
            duration := headDuration st.chunk_info_queue,
            source_type := st.source_label }],
          { st with interim_text := alt.transcript, counter := st.counter + 1 }) := by
      simp [readerProcessText, hch, halt, hne, hnotfinal, hemit]
    rw [hres]
    exact ⟨rfl, rfl⟩

/-- Witness for `reader_result_emission_spec` at a concrete reader state and
a concrete final result. -/

theorem reader_result_emission_spec_witness :
    (shouldEmitFinal respFinalExample = true →
      (readerProcessText readerStateExample (some respFinalExample)).2.chunk_info_queue =
        readerStateExample.chunk_info_queue.tail ∧
      (readerProcessText readerStateExample (some respFinalExample)).1 =
        [{ text := altExample.transcript, source := "Audio",
           sequence_id := readerStateExample.counter,
           chunk_start_time := headStartTime readerStateExample.chunk_info_queue,
           isPartial := false,
           confidence := altExample.confidence,
           audio_start_time := headStartTime readerStateExample.chunk_info_queue,
           audio_end_time := headEndTime readerStateExample.chunk_info_queue,
           duration := headDuration readerStateExample.chunk_info_queue,
           source_type := readerStateExample.source_label }]) ∧
    (shouldEmitFinal respFinalExample = false →
      (readerProcessText readerStateExample (some respFinalExample)).2.chunk_info_queue =
        readerStateExample.chunk_info_queue ∧
      (readerProcessText readerStateExample (some respFinalExample)).1 =
        [{ text := altExample.transcript, source := "Audio",
           sequence_id := readerStateExample.counter,
           chunk_start_time := headStartTime readerStateExample.chunk_info_queue,
           isPartial := true,
           confidence := altExample.confidence,
           audio_start_time := headStartTime readerStateExample.chunk_info_queue,
           audio_end_time := headEndTime readerStateExample.chunk_info_queue,
           duration := headDuration readerStateExample.chunk_info_queue,
           source_type := readerStateExample.source_label }]) :=
  reader_result_emission_spec readerStateExample respFinalExample chExample altExample
    rfl rfl (by decide) rfl

/-- C6: every dequeued chunk increments `chunks_completed` by exactly one,
whatever the outcome.  When the model is not loaded the chunk is counted but
nothing is emitted (not transcribed); `AudioTooShort` and `ModelNotLoaded`
errors are counted and skipped without any user-facing event; any other
transcription failure emits a non-fatal `transcription-warning` (followed by
the usual progress event) and the worker continues. -/

theorem worker_chunk_completion_spec (engine : EngineKind) (modelLoaded : Bool)
    (chunk : AudioChunk) (outcome : Except TranscriptionError (String × Option ℚ × Bool))
    (queued : ℕ) (st : WorkerState) :
    (workerProcessChunk engine modelLoaded chunk outcome queued st).1.chunks_completed
      = st.chunks_completed + 1
    ∧ (modelLoaded = false →
        (workerProcessChunk engine modelLoaded chunk outcome queued st).2 = [])
    ∧ (∀ s m, outcome = .error (.AudioTooShort s m) →
        (workerProcessChunk engine modelLoaded chunk outcome queued st).2 = [])
    ∧ (outcome = .error .ModelNotLoaded →
        (workerProcessChunk engine modelLoaded chunk outcome queued st).2 = [])
    ∧ (∀ d, modelLoaded = true → outcome = .error (.EngineFailed d) →
        (workerProcessChunk engine modelLoaded chunk outcome queued st).2 =
          [.transcriptionWarning (errorMessage (.EngineFailed d)),
            .transcriptionProgress (st.chunks_completed + 1) queued]) := by
  cases modelLoaded with
  | false =>
    refine ⟨rfl, fun _ => rfl, fun s m _ => rfl, fun _ => rfl, fun d hml => absurd hml (by simp)⟩
  | true =>
    have hml : ¬((true : Bool) = false) := by simp
    refine ⟨?_, fun hf => absurd hf (by simp), ?_, ?_, ?_⟩
    · cases outcome with
      | error e =>
        cases e <;> simp [workerProcessChunk]
      | ok res =>
        obtain ⟨transcript, confidence_opt, partialFlag⟩ := res
        by_cases hacc : transcript.trim ≠ "" ∧
            (match confidence_opt with
              | some c => decide (confidenceThreshold engine ≤ c)
              | none => true) = true
        · simp [workerProcessChunk, hacc]
        · simp [workerProcessChunk, hacc]
    · intro s m houtcome
      subst houtcome
      simp [workerProcessChunk]
    · intro houtcome
      subst houtcome
      simp [workerProcessChunk]
    · intro d _ houtcome
      subst houtcome
      simp [workerProcessChunk]

/-- Witness for `worker_chunk_completion_spec` at a concrete chunk in the
`EngineFailed` scenario. -/

theorem worker_chunk_completion_spec_witness :
    (workerProcessChunk .Provider true chunkExample
        (.error (.EngineFailed "boom")) 5
        { chunks_completed := 2, speech_detected_emitted := false, counter := 0 }).1.chunks_completed
      = 2 + 1
    ∧ (workerProcessChunk .Provider true chunkExample
        (.error (.EngineFailed "boom")) 5
        { chunks_completed := 2, speech_detected_emitted := false, counter := 0 }).2 =
        [.transcriptionWarning (errorMessage (.EngineFailed "boom")),
          .transcriptionProgress (2 + 1) 5] :=
  ⟨(worker_chunk_completion_spec .Provider true chunkExample
      (.error (.EngineFailed "boom")) 5
      { chunks_completed := 2, speech_detected_emitted := false, counter := 0 }).1,
    (worker_chunk_completion_spec .Provider true chunkExample
      (.error (.EngineFailed "boom")) 5
      { chunks_completed := 2, speech_detected_emitted := false, counter := 0 }).2.2.2.2
      "boom" rfl rfl⟩

theorem convert_foldl_eq (audio : List ℚ) :
    ∀ acc : List ℕ,
      audio.foldl (fun bytes sample => bytes ++ i16ToLeBytes (sampleToI16 sample)) acc
        = acc ++ pcmBytesConcat audio := by
  induction audio with
  | nil => intro acc; simp [pcmBytesConcat]
  | cons a rest ih =>
    intro acc
    simp only [List.foldl_cons, pcmBytesConcat, ih, List.append_assoc]

theorem convert_to_pcm16_eq_concat (audio : List ℚ) :
    convert_to_pcm16 audio = pcmBytesConcat audio := by
  have h := convert_foldl_eq audio []
  simpa [convert_to_pcm16] using h

theorem pcmBytesConcat_length (audio : List ℚ) :
    (pcmBytesConcat audio).length = 2 * audio.length := by
  induction audio with
  | nil => simp [pcmBytesConcat]
  | cons a rest ih =>
    simp only [pcmBytesConcat, List.length_append, ih, i16ToLeBytes, List.length_cons,
      List.length_nil, List.length_cons]
    omega

theorem pcmBytesConcat_drop (audio : List ℚ) :
    ∀ i, ∀ hi : i < audio.length,
      (pcmBytesConcat audio).drop (2 * i) =
        i16ToLeBytes (sampleToI16 (audio.get ⟨i, hi⟩))
          ++ pcmBytesConcat (audio.drop (i + 1)) := by
  induction audio with
  | nil =>
    intro i hi
    exact absurd hi (by simp)
  | cons a rest ih =>
    intro i hi
    cases i with
    | zero => simp [pcmBytesConcat]
    | succ j =>
      have hj : j < rest.length := Nat.lt_of_succ_lt_succ hi
      have hstep : (pcmBytesConcat (a :: rest)).drop (2 * (j + 1))
          = (pcmBytesConcat rest).drop (2 * j) := by
        show ((i16ToLeBytes (sampleToI16 a)) ++ pcmBytesConcat rest).drop (2 * (j + 1))
          = (pcmBytesConcat rest).drop (2 * j)
        have h2 : 2 * (j + 1) = (i16ToLeBytes (sampleToI16 a)).length + 2 * j := by
          simp [i16ToLeBytes]
          omega
        rw [h2, List.drop_append]
      rw [hstep, ih j hj]
      rfl

theorem rustClamp_unit_mem (x : ℚ) :
    -1 ≤ rustClamp x (-1) 1 ∧ rustClamp x (-1) 1 ≤ 1 := by
  unfold rustClamp
  split_ifs with h1 h2
  · exact ⟨le_refl _, by norm_num⟩
  · exact ⟨by norm_num, le_refl _⟩
  · constructor <;> linarith

theorem roundTiesToEven_intCast (z : ℤ) : roundTiesToEven (z : ℚ) = z := by
  simp [roundTiesToEven]

theorem le_roundTiesToEven {n : ℚ} {k : ℤ} (h : (k : ℚ) ≤ n) : k ≤ roundTiesToEven n := by
  have hf : k ≤ ⌊n⌋ := Int.le_floor.mpr h
  simp only [roundTiesToEven]
  split_ifs <;> omega

theorem roundTiesToEven_le {n : ℚ} {k : ℤ} (h : n ≤ (k : ℚ)) : roundTiesToEven n ≤ k := by
  have hf : ⌊n⌋ ≤ k := by
    calc ⌊n⌋ ≤ ⌊(k : ℚ)⌋ := Int.floor_le_floor h
      _ = k := Int.floor_intCast k
  have key : (0 : ℚ) < n - ⌊n⌋ → ⌊n⌋ < k := by
    intro hr
    have hq : ((⌊n⌋ : ℤ) : ℚ) < (k : ℚ) := by linarith
    exact_mod_cast hq
  simp only [roundTiesToEven]
  split_ifs with h1 h2 h3
  · exact hf
  · have := key (by linarith)
    omega
  · exact hf
  · push_neg at h1 h2
    have := key (by linarith)
    omega

theorem f32Ulp_pos (x : ℚ) : 0 < f32Ulp x :=
  zpow_pos (by norm_num) _

theorem f32Round_bounds {x : ℚ} (hlo : -32767 ≤ x) (hhi : x ≤ 32767) :
    -32767 ≤ f32Round x ∧ f32Round x ≤ 32767 := by
  by_cases hx : x = 0
  · subst hx
    simp [f32Round]
  · have habs : |x| ≤ 32767 := abs_le.mpr ⟨hlo, hhi⟩
    have habs0 : 0 < |x| := abs_pos.mpr hx
    have hlog : Int.log 2 |x| ≤ 14 := by
      have h15 : Int.log 2 |x| < 15 := by
        rw [← Int.lt_zpow_iff_log_lt (by norm_num) habs0]
        calc |x| ≤ 32767 := habs
          _ < (2 : ℚ) ^ (15 : ℤ) := by norm_num
      omega
    unfold f32Round
    rw [if_neg hx]
    set e := max (Int.log 2 |x|) (-126) with he
    have he14 : e ≤ 14 := max_le hlog (by norm_num)
    have hen : (-126 : ℤ) ≤ e := le_max_right _ _
    have hupos : 0 < f32Ulp x := f32Ulp_pos x
    set m : ℕ := (23 - e).toNat with hm
    have hm9 : (23 - e : ℤ) = (m : ℤ) := (Int.toNat_of_nonneg (by omega)).symm
    have hupow : f32Ulp x = ((2 : ℚ) ^ m)⁻¹ := by
      unfold f32Ulp
      rw [← he]
      have hneg : (e - 23 : ℤ) = -((m : ℕ) : ℤ) := by omega
      rw [hneg, zpow_neg, zpow_natCast]
    have hknat : ((32767 * 2 ^ m : ℤ) : ℚ) * f32Ulp x = 32767 := by
      rw [hupow]
      push_cast
      field_simp
    have hkneg : ((-(32767 * 2 ^ m) : ℤ) : ℚ) * f32Ulp x = -32767 := by
      push_cast
      push_cast at hknat
      linarith [hknat]
    have hxu_le : x / f32Ulp x ≤ ((32767 * 2 ^ m : ℤ) : ℚ) := by
      rw [div_le_iff₀ hupos, hknat]
      exact hhi
    have hxu_ge : ((-(32767 * 2 ^ m) : ℤ) : ℚ) ≤ x / f32Ulp x := by
      rw [le_div_iff₀ hupos, hkneg]
      exact hlo
    have hr_le : roundTiesToEven (x / f32Ulp x) ≤ 32767 * 2 ^ m := roundTiesToEven_le hxu_le
    have hr_ge : -(32767 * 2 ^ m) ≤ roundTiesToEven (x / f32Ulp x) :=
      le_roundTiesToEven hxu_ge
    constructor
    · calc (-32767 : ℚ) = ((-(32767 * 2 ^ m) : ℤ) : ℚ) * f32Ulp x := hkneg.symm
        _ ≤ (roundTiesToEven (x / f32Ulp x) : ℚ) * f32Ulp x := by
            apply mul_le_mul_of_nonneg_right _ (le_of_lt hupos)
            exact_mod_cast hr_ge
    · calc (roundTiesToEven (x / f32Ulp x) : ℚ) * f32Ulp x
          ≤ ((32767 * 2 ^ m : ℤ) : ℚ) * f32Ulp x := by
            apply mul_le_mul_of_nonneg_right _ (le_of_lt hupos)
            exact_mod_cast hr_le
        _ = 32767 := hknat

theorem log_32767 : Int.log 2 (32767 : ℚ) = 14 := by
  rw [Int.log_ofNat]
  norm_cast
  apply Nat.log_eq_of_pow_le_of_lt_pow <;> norm_num

theorem f32Ulp_32767 : f32Ulp (32767 : ℚ) = ((2 : ℚ) ^ (9 : ℕ))⁻¹ := by
  unfold f32Ulp
  rw [show |(32767 : ℚ)| = 32767 from by norm_num, log_32767,
    show max (14 : ℤ) (-126) = 14 from by norm_num,
    show (14 - 23 : ℤ) = -((9 : ℕ) : ℤ) from by norm_num, zpow_neg, zpow_natCast]

theorem f32Round_32767 : f32Round (32767 : ℚ) = 32767 := by
  unfold f32Round
  rw [if_neg (by norm_num), f32Ulp_32767]
  rw [show (32767 : ℚ) / ((2 : ℚ) ^ (9 : ℕ))⁻¹ = ((16776704 : ℤ) : ℚ) from by norm_num,
    roundTiesToEven_intCast]
  norm_num

theorem f32Ulp_neg32767 : f32Ulp (-32767 : ℚ) = ((2 : ℚ) ^ (9 : ℕ))⁻¹ := by
  unfold f32Ulp
  rw [show |(-32767 : ℚ)| = 32767 from by norm_num, log_32767,
    show max (14 : ℤ) (-126) = 14 from by norm_num,
    show (14 - 23 : ℤ) = -((9 : ℕ) : ℤ) from by norm_num, zpow_neg, zpow_natCast]

theorem f32Round_neg32767 : f32Round (-32767 : ℚ) = -32767 := by
  unfold f32Round
  rw [if_neg (by norm_num), f32Ulp_neg32767]
  rw [show (-32767 : ℚ) / ((2 : ℚ) ^ (9 : ℕ))⁻¹ = ((-16776704 : ℤ) : ℚ) from by norm_num,
    roundTiesToEven_intCast]
  norm_num

theorem sampleToI16_bounds (s : ℚ) :
    -32767 ≤ sampleToI16 s ∧ sampleToI16 s ≤ 32767 := by
  obtain ⟨hlo, hhi⟩ := rustClamp_unit_mem s
  have hql : (-32767 : ℚ) ≤ rustClamp s (-1) 1 * 32767 := by nlinarith
  have hqh : rustClamp s (-1) 1 * 32767 ≤ (32767 : ℚ) := by nlinarith
  obtain ⟨hrl, hrh⟩ := f32Round_bounds hql hqh
  unfold sampleToI16 truncQ
  split_ifs with hneg
  · constructor
    · have h2 : ((-32767 : ℤ) : ℚ) ≤ f32Round (rustClamp s (-1) 1 * 32767) := by
        exact_mod_cast hrl
      calc (-32767 : ℤ) = ⌈((-32767 : ℤ) : ℚ)⌉ := (Int.ceil_intCast _).symm
        _ ≤ ⌈f32Round (rustClamp s (-1) 1 * 32767)⌉ := Int.ceil_le_ceil h2
    · have hle : f32Round (rustClamp s (-1) 1 * 32767) ≤ ((32767 : ℤ) : ℚ) := by
        exact_mod_cast hrh
      calc ⌈f32Round (rustClamp s (-1) 1 * 32767)⌉ ≤ ⌈((32767 : ℤ) : ℚ)⌉ :=
          Int.ceil_le_ceil hle
        _ = 32767 := Int.ceil_intCast _
  · constructor
    · have h2 : ((-32767 : ℤ) : ℚ) ≤ f32Round (rustClamp s (-1) 1 * 32767) := by
        exact_mod_cast hrl
      calc (-32767 : ℤ) = ⌊((-32767 : ℤ) : ℚ)⌋ := (Int.floor_intCast _).symm
        _ ≤ ⌊f32Round (rustClamp s (-1) 1 * 32767)⌋ := Int.floor_le_floor h2
    · have hle : f32Round (rustClamp s (-1) 1 * 32767) ≤ ((32767 : ℤ) : ℚ) := by
        exact_mod_cast hrh
      calc ⌊f32Round (rustClamp s (-1) 1 * 32767)⌋ ≤ ⌊((32767 : ℤ) : ℚ)⌋ :=
          Int.floor_le_floor hle
        _ = 32767 := Int.floor_intCast _

/-- The f32 rounding step of the multiply is observable: for the f32 sample
`0.5 + 2⁻¹⁶ = 32769/65536` the exact product `16383.99998…` rounds up to
`16384.0` before the cast, so the emitted value is 16384 — where an
exact-arithmetic truncation would give 16383. -/

theorem sampleToI16_rounds_up : sampleToI16 (32769 / 65536) = 16384 := by
  unfold sampleToI16
  rw [show rustClamp (32769 / 65536) (-1) 1 * 32767 = (1073741823 / 65536 : ℚ) from by
    norm_num [rustClamp]]
  have hlog : Int.log 2 |(1073741823 / 65536 : ℚ)| = 13 := by
    rw [show |(1073741823 / 65536 : ℚ)| = 1073741823 / 65536 from by norm_num]
    have h1 : (13 : ℤ) ≤ Int.log 2 (1073741823 / 65536 : ℚ) := by
      rw [← Int.zpow_le_iff_le_log (by norm_num) (by norm_num)]
      norm_num
    have h2 : Int.log 2 (1073741823 / 65536 : ℚ) < 14 := by
      rw [← Int.lt_zpow_iff_log_lt (by norm_num) (by norm_num)]
      norm_num
    omega
  unfold f32Round
  rw [if_neg (by norm_num)]
  have hulp : f32Ulp (1073741823 / 65536 : ℚ) = ((2 : ℚ) ^ (10 : ℕ))⁻¹ := by
    unfold f32Ulp
    rw [hlog, show max (13 : ℤ) (-126) = 13 from by norm_num,
      show (13 - 23 : ℤ) = -((10 : ℕ) : ℤ) from by norm_num, zpow_neg, zpow_natCast]
  rw [hulp]
  rw [show (1073741823 / 65536 : ℚ) / ((2 : ℚ) ^ (10 : ℕ))⁻¹ = 1073741823 / 64 from by
    norm_num]
  have hfl : ⌊(1073741823 / 64 : ℚ)⌋ = 16777215 := by
    rw [Int.floor_eq_iff]
    constructor <;> norm_num
  have hround : roundTiesToEven (1073741823 / 64 : ℚ) = 16777216 := by
    simp only [roundTiesToEven, hfl]
    norm_num
  rw [hround]
  rw [show ((16777216 : ℤ) : ℚ) * ((2 : ℚ) ^ (10 : ℕ))⁻¹ = (16384 : ℚ) from by norm_num]
  unfold truncQ
  rw [if_neg (by norm_num)]
  rw [show (16384 : ℚ) = ((16384 : ℤ) : ℚ) from by norm_num, Int.floor_intCast]

/-- C10: `convert_to_pcm16` produces exactly two bytes per input sample, in
input order: the bytes at positions `2i` and `2i+1` are the little-endian
representation of the i-th sample clamped to `[-1, 1]`, scaled by 32767 in
f32 arithmetic (IEEE round-to-nearest-even, modelled by `f32Round`) and
truncated to `i16`.  In particular `1.0 ↦ 32767`, `-1.0 ↦ -32767`, and no
sample ever maps to `-32768`. -/

theorem convert_to_pcm16_spec (audio : List ℚ) :
    (convert_to_pcm16 audio).length = 2 * audio.length
    ∧ (∀ i, ∀ hi : i < audio.length,
        ((convert_to_pcm16 audio).drop (2 * i)).take 2 =
          i16ToLeBytes (sampleToI16 (audio.get ⟨i, hi⟩)))
    ∧ sampleToI16 1 = 32767
    ∧ sampleToI16 (-1) = -32767
    ∧ (∀ s : ℚ, -32767 ≤ sampleToI16 s ∧ sampleToI16 s ≤ 32767) := by
  refine ⟨?_, ?_, ?_, ?_, sampleToI16_bounds⟩
  · rw [convert_to_pcm16_eq_concat]
    exact pcmBytesConcat_length audio
  · intro i hi
    rw [convert_to_pcm16_eq_concat, pcmBytesConcat_drop audio i hi]
    have hlen : (i16ToLeBytes (sampleToI16 (audio.get ⟨i, hi⟩))).length = 2 := rfl
    rw [← hlen]
    exact List.take_left _ _
  · unfold sampleToI16
    rw [show rustClamp 1 (-1) 1 * 32767 = (32767 : ℚ) from by norm_num [rustClamp]]
    rw [f32Round_32767]
    unfold truncQ
    rw [if_neg (by norm_num)]
    rw [show (32767 : ℚ) = ((32767 : ℤ) : ℚ) from by norm_num, Int.floor_intCast]
  · unfold sampleToI16
    rw [show rustClamp (-1) (-1) 1 * 32767 = (-32767 : ℚ) from by norm_num [rustClamp]]
    rw [f32Round_neg32767]
    unfold truncQ
    rw [if_pos (by norm_num)]
    rw [show (-32767 : ℚ) = ((-32767 : ℤ) : ℚ) from by norm_num, Int.ceil_intCast]

/-- Witness for `convert_to_pcm16_spec`: the byte pair of the second sample
of a concrete input. -/

theorem convert_to_pcm16_spec_witness :
    ((convert_to_pcm16 [1, -(1 / 2)]).drop (2 * 1)).take 2 =
      i16ToLeBytes (sampleToI16 (([1, -(1 / 2)] : List ℚ).get ⟨1, by decide⟩)) :=
  (convert_to_pcm16_spec [1, -(1 / 2)]).2.1 1 (by decide)

/-- Witness for `shutdownVerification_spec`: with counters that already
balance with one dropped chunk, the loop emits the `partial_loss` summary. -/
theorem shutdownVerification_spec_witness :
    shutdownVerification (fun _ => { queued := 2, completed := 1, dropped := 1 }) =
      SummaryEvent.transcriptionSummary 2 1 1 "partial_loss" := by
  rcases shutdownVerification_spec (fun _ => { queued := 2, completed := 1, dropped := 1 })
    with ⟨k, _, _, _, heq⟩ | ⟨hall, _⟩
  · simpa using heq
  · exact absurd rfl (hall 0 (by norm_num))

/-- Witness for `sequence_ids_unique_and_task_ordered` at the concrete
two-task system and schedule of the counterexample. -/
theorem sequence_ids_unique_and_task_ordered_witness :
    (logIdsOf (emitRun (initEmitSystem [1, 1]) [0, 1, 1, 0]).log).Nodup ∧
    ∀ t, List.Chain' (· < ·) (taskIdsOf (emitRun (initEmitSystem [1, 1]) [0, 1, 1, 0]).log t) :=
  sequence_ids_unique_and_task_ordered [1, 1] [0, 1, 1, 0]

/-- Witness for `stop_recording_idle_noop` at a concrete environment (even a
failing stream stop has no effect when nothing is recording). -/
theorem stop_recording_idle_noop_witness :
    stop_recording false { managerPresent := true, stopStreamsOk := false, emitStoppedOk := true }
      = (Except.ok (), ([], false)) :=
  stop_recording_idle_noop
    { managerPresent := true, stopStreamsOk := false, emitStoppedOk := true }
